import Mathlib

/-!
Shallow embedding of the medical-ocr-pipeline line grouping and QA metrics.

Coordinates and confidences are modelled as exact rationals (ℚ).  Python
`float` arithmetic on the values the claims are about (comparisons,
min/max, sums, divisions) is modelled exactly; `math.isfinite` always
holds on ℚ, which is noted wherever the source checks it.

Sources embedded here:
  src/mcp/mcp_ocr_surya.py    (parse_surya_output)
  src/mcp/mcp_ocr_easy.py     (parse_easy_output)
  src/mcp/mcp_ocr_paddle.py   (parse_paddle_output)
  src/mcp/mcp_ocr_nanonets.py (parse_nanonets_output, confidence default)
  src/notebooks/qa_pipeline_evaluator.py
    (_calculate_reading_order_score, _calculate_layout_preservation,
     _calculate_bbox_iou; leading underscores dropped in the Lean names)
-/

/-! ## Small Python-semantics helpers -/

/-- Python `abs` on rationals. -/
def qAbs (q : ℚ) : ℚ := if q < 0 then -q else q

/-- Python `min` over a list.  `min([])` raises in Python; every call site
below passes a non-empty list (proved where it matters), so the `[]` case
value is irrelevant. -/
def qListMin : List ℚ → ℚ
  | [] => 0
  | a :: r => r.foldl min a

/-- Python `max` over a list; same remark as for `qListMin`. -/
def qListMax : List ℚ → ℚ
  | [] => 0
  | a :: r => r.foldl max a

/-- Python `sum(xs) / len(xs)`.  In Lean division by zero yields 0 where
Python would raise `ZeroDivisionError`; every call site below passes a
non-empty list. -/
def qMean (l : List ℚ) : ℚ := l.sum / (l.length : ℚ)

/-- Drop leading whitespace characters. -/
def dropWs : List Char → List Char
  | [] => []
  | c :: cs => if c.isWhitespace then dropWs cs else c :: cs

/-- Python `str.strip()`: remove leading and trailing whitespace. -/
def pyStrip (s : String) : String :=
  String.mk ((dropWs ((dropWs s.data).reverse)).reverse)

/-- The single-space separator used by `" ".join(...)`. -/
def spaceSep : String := " "

/-- The empty string (used for Python `rec[0] or ""`). -/
def emptyStr : String := ""

/-- Python `" ".join(texts)`. -/
def spaceJoin (ts : List String) : String := String.intercalate spaceSep ts

/-- Insert `x` after every element `y` of an ascending list with `le y x`.
Building block of the stable sort below. -/
def insertAfterLe (le : α → α → Bool) (x : α) : List α → List α
  | [] => [x]
  | y :: ys => if le y x then y :: insertAfterLe le x ys else x :: y :: ys

/-- Stable ascending sort (insertion sort, keeping earlier elements first
among key-equal ones).  For a total preorder `le` this coincides with the
result of Python `list.sort` / `sorted` with the corresponding key. -/
def pySort (le : α → α → Bool) (l : List α) : List α :=
  l.foldl (fun acc x => insertAfterLe le x acc) []

/-- Python `round` to the nearest integer, ties to even. -/
def pyRoundInt (q : ℚ) : ℤ :=
  if q - ⌊q⌋ < 1/2 then ⌊q⌋
  else if (1/2 : ℚ) < q - ⌊q⌋ then ⌊q⌋ + 1
  else if ⌊q⌋ % 2 = 0 then ⌊q⌋ else ⌊q⌋ + 1

/-- Python `round(q, 1)` (one decimal digit), modelled on exact rationals. -/
def pyRound1 (q : ℚ) : ℚ := (pyRoundInt (10 * q) : ℚ) / 10

/-! ## Data model -/

/-- An axis-aligned bounding box `[x0, y0, x1, y1]`. -/
structure BBox where
  x0 : ℚ
  y0 : ℚ
  x1 : ℚ
  y1 : ℚ
deriving DecidableEq, Repr

/-- One detection dict `{'bbox': ..., 'text': ..., 'conf': ...}`. -/
structure Det where
  bbox : BBox
  text : String
  conf : ℚ
deriving DecidableEq, Repr

/-- One output block `{'text': ..., 'confidence': ..., 'bbox': ...}`. -/
structure Block where
  text : String
  confidence : ℚ
  bbox : BBox
deriving DecidableEq, Repr

/-- Union (min of mins, max of maxes) of the member boxes of a line. -/
def detUnion (cur : List Det) : BBox :=
  { x0 := qListMin (cur.map fun d => d.bbox.x0)
  , y0 := qListMin (cur.map fun d => d.bbox.y0)
  , x1 := qListMax (cur.map fun d => d.bbox.x1)
  , y1 := qListMax (cur.map fun d => d.bbox.y1) }

/-- Comparison used by the final `sorted(blocks, key=lambda b: b['bbox'][1])`. -/
def blockYLe (a b : Block) : Bool := decide (a.bbox.y0 ≤ b.bbox.y0)

/-- Final reading-order sort of the produced blocks. -/
def sortBlocksByY (bs : List Block) : List Block := pySort blockYLe bs

/-! ## qa_pipeline_evaluator.py : _calculate_bbox_iou -/

/-- Source function `_calculate_bbox_iou` from qa_pipeline_evaluator.py, lines 421-440. -/
def calculate_bbox_iou (a b : BBox) : ℚ :=
  let xi1 := max a.x0 b.x0
  let yi1 := max a.y0 b.y0
  let xi2 := min a.x1 b.x1
  let yi2 := min a.y1 b.y1
  if xi2 ≤ xi1 ∨ yi2 ≤ yi1 then 0
  else
    let inter := (xi2 - xi1) * (yi2 - yi1)
    let area1 := (a.x1 - a.x0) * (a.y1 - a.y0)
    let area2 := (b.x1 - b.x0) * (b.y1 - b.y0)
    let uni := area1 + area2 - inter
    if 0 < uni then inter / uni else 0

/-- Best IoU of `b` against all after-boxes (`best_iou` accumulator,
initialised to 0 and updated with `max`). -/
def bestIoU (b : BBox) (after : List BBox) : ℚ :=
  after.foldl (fun acc a => max acc (calculate_bbox_iou b a)) 0

/-- Source function `_calculate_layout_preservation` from qa_pipeline_evaluator.py, lines
400-419.  The source also keeps a `matches` counter that it never reads;
it is omitted because it does not influence the result.  The trailing
`if before_bboxes else 0` guard of the source is subsumed by the leading
empty-list test. -/
def calculate_layout_preservation (before after : List BBox) : ℚ :=
  if before.isEmpty ∨ after.isEmpty then 0
  else
    (before.foldl
      (fun acc b => if 3/10 < bestIoU b after then acc + bestIoU b after else acc) 0)
      / (before.length : ℚ)

/-- One adjacent-pair reading-order violation test (`current`, `next_box`):
`current[1] > next_box[1] + 10`, elif
`abs(current[1] - next_box[1]) < 10 and current[0] > next_box[0]`. -/
def orderViolation (c n : BBox) : Bool :=
  if n.y0 + 10 < c.y0 then true
  else if qAbs (c.y0 - n.y0) < 10 ∧ n.x0 < c.x0 then true
  else false

/-- Number of violating adjacent pairs of a bbox list, taken in the order
the list is given (the source iterates `bboxes[i]`, `bboxes[i+1]`). -/
def orderViolations (bs : List BBox) : ℕ :=
  (bs.zip bs.tail).countP fun p => orderViolation p.1 p.2

/-- Source function `_calculate_reading_order_score` from qa_pipeline_evaluator.py, lines
378-398.  Note: the source computes `sorted_bboxes` (sorted by `(y, x)`)
and never uses it; the violation loop runs over the ORIGINAL `bboxes`
list, and the ratio divides by `len(bboxes)`. -/
def calculate_reading_order_score (bs : List BBox) : ℚ :=
  if bs.length < 2 then 1
  else max 0 (1 - (orderViolations bs : ℚ) / (bs.length : ℚ))

/-- Comparison realising the `(b[1], b[0])` sort key of the evaluator. -/
def bboxYXLe (a b : BBox) : Bool :=
  decide (a.y0 < b.y0) || (decide (a.y0 = b.y0) && decide (a.x0 ≤ b.x0))

/-- Modelled from the spec: reading-order fidelity as the spec words it,
with violations counted over adjacent pairs taken in sorted `(top-y,
left-x)` order and the ratio's denominator equal to the number of
adjacent pairs.  Used only to compare the spec's description with
`calculate_reading_order_score`. -/
def readingOrderScoreSpec (bs : List BBox) : ℚ :=
  if bs.length < 2 then 1
  else 1 - (orderViolations (pySort bboxYXLe bs) : ℚ) / ((bs.length : ℚ) - 1)

/-! ## mcp_ocr_surya.py : parse_surya_output -/

/-- One Surya text line as the parser sees it: `text` is the raw
`line.text` (before strip), `conf` is `None` when the `confidence`
attribute is missing or not convertible by `float(...)`, and `box` is the
result of `to_box(line)` (`None` when neither bbox nor polygon yields a
box). -/
structure SuryaLine where
  text : String
  conf : Option ℚ
  box : Option BBox
deriving DecidableEq, Repr

/-- Surya confidence normalization (mcp_ocr_surya.py lines 119-126):
default 1.0 for a missing/unparseable confidence, `conf /= 100` when
`conf > 1.0`, then clamp to `[0, 1]`. -/
def suryaNormConf (c : Option ℚ) : ℚ :=
  let c0 := c.getD 1
  let c1 := if 1 < c0 then c0 / 100 else c0
  max 0 (min 1 c1)

/-- Detection collection of `parse_surya_output` (lines 114-141): strip
the text and drop empty ones, normalize confidence, drop lines without a
box, and drop non-finite or inverted boxes.  On ℚ every coordinate is
finite, so the `math.isfinite` conjunction always holds and only the
`x1 <= x0 or y1 <= y0` test can discard. -/
def suryaCollect (lines : List SuryaLine) : List Det :=
  lines.filterMap fun r =>
    let txt := pyStrip r.text
    if txt = "" then none
    else
      match r.box with
      | none => none
      | some b =>
        if b.x1 ≤ b.x0 ∨ b.y1 ≤ b.y0 then none
        else some { bbox := b, text := txt, conf := suryaNormConf r.conf }

/-- The `(round(d['bbox'][1], 1), round(d['bbox'][0], 1))` sort key of
`parse_surya_output`, as a boolean comparison. -/
def suryaLe (a b : Det) : Bool :=
  decide (pyRound1 a.bbox.y0 < pyRound1 b.bbox.y0) ||
    (decide (pyRound1 a.bbox.y0 = pyRound1 b.bbox.y0) &&
      decide (pyRound1 a.bbox.x0 ≤ pyRound1 b.bbox.x0))

/-- Stable sort of the collected detections by the Surya key. -/
def suryaSort (dets : List Det) : List Det := pySort suryaLe dets

/-- Flush of the current Surya line (lines 157-168 and 174-185): text is
the space-join of the member texts in buffer order, then stripped;
confidence is the mean (with the source's `if confs else 0.0` guard);
bbox is the union of the member boxes. -/
def suryaFlush (cur : List Det) : Block :=
  { text := pyStrip (spaceJoin (cur.map Det.text))
  , confidence := if cur.isEmpty then 0 else qMean (cur.map Det.conf)
  , bbox := detUnion cur }

/-- The grouping test `current_line and current_y is not None and
abs(y0 - current_y) <= y_tol` of `parse_surya_output`. -/
def suryaCond (cur : List Det) (curY : Option ℚ) (y0 yTol : ℚ) : Bool :=
  !cur.isEmpty &&
    match curY with
    | some cy => decide (qAbs (y0 - cy) ≤ yTol)
    | none => false

/-- The grouping loop of `parse_surya_output` (lines 146-185), state =
(remaining detections, current_line, current_y, blocks); the `[]` case is
the final flush. -/
def suryaLoop (yTol : ℚ) : List Det → List Det → Option ℚ → List Block → List Block
  | [], cur, _, blocks => if cur.isEmpty then blocks else blocks ++ [suryaFlush cur]
  | d :: rest, cur, curY, blocks =>
    if suryaCond cur curY d.bbox.y0 yTol then
      suryaLoop yTol rest (cur ++ [d]) curY blocks
    else
      suryaLoop yTol rest [d] (some d.bbox.y0)
        (if cur.isEmpty then blocks else blocks ++ [suryaFlush cur])

/-- The same loop, recorded at the level of the flushed buffers (groups)
instead of the flushed blocks; related to `suryaLoop` by a proved lemma. -/
def suryaGroupsLoop (yTol : ℚ) :
    List Det → List Det → Option ℚ → List (List Det) → List (List Det)
  | [], cur, _, gs => if cur.isEmpty then gs else gs ++ [cur]
  | d :: rest, cur, curY, gs =>
    if suryaCond cur curY d.bbox.y0 yTol then
      suryaGroupsLoop yTol rest (cur ++ [d]) curY gs
    else
      suryaGroupsLoop yTol rest [d] (some d.bbox.y0)
        (if cur.isEmpty then gs else gs ++ [cur])

/-- The line groups the Surya grouping loop builds from a detection list. -/
def suryaGroups (yTol : ℚ) (dets : List Det) : List (List Det) :=
  suryaGroupsLoop yTol dets [] none []

/-- Source function `parse_surya_output` (mcp_ocr_surya.py lines 78-188) for one page:
collect detections, sort by the rounded `(y, x)` key, group into lines,
and return the blocks sorted by top y.  The early returns for empty
predictions/text_lines/dets all yield `[]`, which the general path also
yields on those inputs. -/
def parse_surya_output (yTol : ℚ) (lines : List SuryaLine) : List Block :=
  sortBlocksByY (suryaLoop yTol (suryaSort (suryaCollect lines)) [] none [])

/-- Modelled from the spec: the line-grouping rule as the spec states it,
with the reference-y anchored to the current buffer's FIRST member - a
detection is appended exactly when its top-y is within tolerance of the
first member's top-y, else the buffer is flushed and restarted.  Used to
compare the spec's description with the implemented groupers. -/
def anchoredLoop (tol : ℚ) : List Det → List Det → List (List Det) → List (List Det)
  | [], cur, gs => if cur.isEmpty then gs else gs ++ [cur]
  | d :: rest, cur, gs =>
    match cur.head? with
    | some f =>
      if qAbs (d.bbox.y0 - f.bbox.y0) ≤ tol then anchoredLoop tol rest (cur ++ [d]) gs
      else anchoredLoop tol rest [d] (gs ++ [cur])
    | none => anchoredLoop tol rest [d] gs

/-- Modelled from the spec: the groups produced by the anchored rule. -/
def anchoredGroups (tol : ℚ) (dets : List Det) : List (List Det) :=
  anchoredLoop tol dets [] []

/-! ## mcp_ocr_paddle.py : parse_paddle_output -/

/-- One flattened PaddleOCR entry `[poly, (text, conf)]`.  `recog := none`
models a malformed entry (the source's `rec` variable; renamed because
`rec` is reserved for the recursor) (`len(det) < 2` or falsy `rec`); inside `rec`,
`none` text models `rec[0]` being `None` and `none` confidence models
`len(rec) <= 1`. -/
structure PaddleItem where
  poly : List (ℚ × ℚ)
  recog : Option (Option String × Option ℚ)
deriving DecidableEq, Repr

/-- The paddle sort key `min(float(p[1]) for p in det[0])` with
`float('inf')` (here `none`) for an entry without polygon points. -/
def paddleKey (it : PaddleItem) : Option ℚ :=
  match it.poly with
  | [] => none
  | ps => some (qListMin (ps.map Prod.snd))

/-- Ascending comparison on paddle keys, `none` playing `float('inf')`. -/
def paddleKeyLe (a b : PaddleItem) : Bool :=
  match paddleKey a, paddleKey b with
  | none, none => true
  | none, some _ => false
  | some _, none => true
  | some x, some y => decide (x ≤ y)

/-- Paddle line flush (lines 132-147 and 151-165): sort the buffer by
left x (stable), then join texts, average confidences and union boxes
over the sorted buffer. -/
def paddleFlush (cur : List Det) : Block :=
  { text := spaceJoin ((pySort (fun a b : Det => decide (a.bbox.x0 ≤ b.bbox.x0)) cur).map Det.text)
  , confidence := qMean ((pySort (fun a b : Det => decide (a.bbox.x0 ≤ b.bbox.x0)) cur).map Det.conf)
  , bbox := detUnion (pySort (fun a b : Det => decide (a.bbox.x0 ≤ b.bbox.x0)) cur) }

/-- Per-item processing of the paddle loop body (lines 110-125): `none`
for the skip-continue cases (malformed entry, empty polygon, empty
stripped text), otherwise the detection dict with its bbox built from
the polygon min/max. -/
def paddleDet (it : PaddleItem) : Option Det :=
  match it.recog with
  | none => none
  | some (t, c) =>
    match it.poly with
    | [] => none
    | p :: ps =>
      let txt := pyStrip (t.getD emptyStr)
      if txt = "" then none
      else
        some
          { bbox :=
              { x0 := qListMin ((p :: ps).map Prod.fst)
              , y0 := qListMin ((p :: ps).map Prod.snd)
              , x1 := qListMax ((p :: ps).map Prod.fst)
              , y1 := qListMax ((p :: ps).map Prod.snd) }
          , text := txt, conf := c.getD 1 }

/-- The loop of `parse_paddle_output` (lines 108-165): skip malformed
entries and empty texts (`paddleDet` = none), and group by comparing the
detection's top y with the LAST buffered member's top y
(`current_line[-1]['bbox'][1]`). -/
def paddleLoop : List PaddleItem → List Det → List Block → List Block
  | [], cur, blocks => if cur.isEmpty then blocks else blocks ++ [paddleFlush cur]
  | it :: rest, cur, blocks =>
    match paddleDet it with
    | none => paddleLoop rest cur blocks
    | some d =>
      match cur.getLast? with
      | some last =>
        if qAbs (d.bbox.y0 - last.bbox.y0) ≤ 10 then paddleLoop rest (cur ++ [d]) blocks
        else paddleLoop rest [d] (blocks ++ [paddleFlush cur])
      | none => paddleLoop rest [d] blocks

/-- The paddle loop at the level of the flushed buffers. -/
def paddleGroupsLoop : List PaddleItem → List Det → List (List Det) → List (List Det)
  | [], cur, gs => if cur.isEmpty then gs else gs ++ [cur]
  | it :: rest, cur, gs =>
    match paddleDet it with
    | none => paddleGroupsLoop rest cur gs
    | some d =>
      match cur.getLast? with
      | some last =>
        if qAbs (d.bbox.y0 - last.bbox.y0) ≤ 10 then paddleGroupsLoop rest (cur ++ [d]) gs
        else paddleGroupsLoop rest [d] (gs ++ [cur])
      | none => paddleGroupsLoop rest [d] gs

/-- Source function `parse_paddle_output` (mcp_ocr_paddle.py lines 91-167): flatten the
batches, sort by the min-y key, run the grouping loop, and sort the
blocks by top y.  `if not res: return blocks` yields `[]`, which the
general path also yields. -/
def parse_paddle_output (res : List (List PaddleItem)) : List Block :=
  sortBlocksByY (paddleLoop (pySort paddleKeyLe res.flatten) [] [])

/-- The groups underlying `parse_paddle_output`. -/
def paddleGroups (res : List (List PaddleItem)) : List (List Det) :=
  paddleGroupsLoop (pySort paddleKeyLe res.flatten) [] []

/-! ## mcp_ocr_easy.py : parse_easy_output -/

/-- Easy confidence normalization (lines 58-60): `conf / 100` when
`conf > 1.0`, no clamp. -/
def easyConf (c : ℚ) : ℚ := if 1 < c then c / 100 else c

/-- A detection dict inside the easy grouping loop.  `y0s` models the
optional `'y0'` dict key: it is set (line 95) only on the member that
STARTS a line and absent on members appended afterwards. -/
structure EDet where
  det : Det
  y0s : Option ℚ
deriving DecidableEq, Repr

/-- The message of the `KeyError` raised when the loop reads the missing
`'y0'` key of an appended member. -/
def keyErrY0 : String := "KeyError: 'y0'"

/-- The message of the `ValueError` raised by `min()` on an empty
polygon. -/
def valErrEmptyMin : String := "ValueError: min() arg is an empty sequence"

/-- Easy line flush (lines 80-93 and 98-110): join texts in buffer order
(no x-sort, no strip of the joined text), average confidences, union
boxes. -/
def easyFlush (cur : List EDet) : Block :=
  { text := spaceJoin (cur.map fun e => e.det.text)
  , confidence := qMean (cur.map fun e => e.det.conf)
  , bbox := detUnion (cur.map EDet.det) }

/-- Detection collection of `parse_easy_output` (lines 50-67): items with
fewer than 3 components (`none` here) are skipped, empty stripped texts
are skipped, confidence is normalized, and the bbox is the min/max of
the polygon points.  There is NO finiteness or inversion filter.  `min()`
on an empty polygon raises `ValueError`. -/
def easyCollect : List (Option (List (ℚ × ℚ) × String × ℚ)) → Except String (List Det)
  | [] => .ok []
  | none :: rest => easyCollect rest
  | some (poly, t, c) :: rest =>
    let txt := pyStrip t
    if txt = "" then easyCollect rest
    else
      match poly with
      | [] => .error valErrEmptyMin
      | p :: ps =>
        (easyCollect rest).map fun ds =>
          { bbox :=
              { x0 := qListMin ((p :: ps).map Prod.fst)
              , y0 := qListMin ((p :: ps).map Prod.snd)
              , x1 := qListMax ((p :: ps).map Prod.fst)
              , y1 := qListMax ((p :: ps).map Prod.snd) }
          , text := txt, conf := easyConf c } :: ds

/-- The grouping loop of `parse_easy_output` (lines 73-110).  The test is
`current_line and abs(y0 - current_line[-1]['y0']) <= 10`: with a
non-empty buffer it reads the `'y0'` key of the LAST member, which was
stored only on the member that started the line; when the last member was
appended (has no `'y0'`), the lookup raises `KeyError`. -/
def easyLoop : List Det → List EDet → List Block → Except String (List Block)
  | [], cur, blocks => .ok (if cur.isEmpty then blocks else blocks ++ [easyFlush cur])
  | d :: rest, cur, blocks =>
    match cur.getLast? with
    | none => easyLoop rest [{ det := d, y0s := some d.bbox.y0 }] blocks
    | some last =>
      match last.y0s with
      | none => .error keyErrY0
      | some y =>
        if qAbs (d.bbox.y0 - y) ≤ 10 then
          easyLoop rest (cur ++ [{ det := d, y0s := none }]) blocks
        else
          easyLoop rest [{ det := d, y0s := some d.bbox.y0 }] (blocks ++ [easyFlush cur])

/-- The `x['bbox'][1]` ascending sort key of `parse_easy_output`. -/
def easyYLe (a b : Det) : Bool := decide (a.bbox.y0 ≤ b.bbox.y0)

/-- Source function `parse_easy_output` (mcp_ocr_easy.py lines 43-112): collect, sort by
top y, group (possibly raising), and sort the blocks by top y. -/
def parse_easy_output (results : List (Option (List (ℚ × ℚ) × String × ℚ))) :
    Except String (List Block) :=
  (easyCollect results).bind fun dets =>
    (easyLoop (pySort easyYLe dets) [] []).map sortBlocksByY

/-! ## mcp_ocr_nanonets.py : confidence handling -/

/-- Nanonets confidence (mcp_ocr_nanonets.py line 60):
`pred.get("confidence", 0.9)`, used without any normalization or clamp. -/
def nanonetsConf (c : Option ℚ) : ℚ := c.getD (9/10)

/-! ## Helper lemmas: the stable sort permutes its input -/

theorem insertAfterLe_perm (le : α → α → Bool) (x : α) (l : List α) :
    List.Perm (insertAfterLe le x l) (x :: l) := by
  induction l with
  | nil => simp [insertAfterLe]
  | cons y ys ih =>
    simp only [insertAfterLe]
    by_cases h : le y x = true
    · rw [if_pos h]
      exact List.Perm.trans (List.Perm.cons y ih) (List.Perm.swap x y ys)
    · rw [if_neg h]

theorem pySort_go_perm (le : α → α → Bool) :
    ∀ (l acc : List α),
      List.Perm (l.foldl (fun a x => insertAfterLe le x a) acc) (acc ++ l) := by
  intro l
  induction l with
  | nil => intro acc; simp
  | cons d rest ih =>
    intro acc
    simp only [List.foldl_cons]
    refine (ih (insertAfterLe le d acc)).trans ?_
    refine (List.Perm.append_right rest (insertAfterLe_perm le d acc)).trans ?_
    exact List.perm_middle.symm

theorem pySort_perm (le : α → α → Bool) (l : List α) : List.Perm (pySort le l) l := by
  simpa [pySort] using pySort_go_perm le l []

theorem pySort_mem_iff (le : α → α → Bool) (l : List α) (x : α) :
    x ∈ pySort le l ↔ x ∈ l :=
  (pySort_perm le l).mem_iff

/-! ## Helper lemmas: list minimum and maximum -/

theorem foldl_min_le_init : ∀ (r : List ℚ) (a : ℚ), r.foldl min a ≤ a := by
  intro r
  induction r with
  | nil => intro a; exact le_refl a
  | cons y ys ih =>
    intro a
    simp only [List.foldl_cons]
    exact le_trans (ih (min a y)) (min_le_left a y)

theorem foldl_min_le_mem :
    ∀ (r : List ℚ) (a x : ℚ), x ∈ r → r.foldl min a ≤ x := by
  intro r
  induction r with
  | nil => intro a x hx; cases hx
  | cons y ys ih =>
    intro a x hx
    simp only [List.foldl_cons]
    rcases List.mem_cons.mp hx with h | h
    · subst h
      exact le_trans (foldl_min_le_init ys (min a x)) (min_le_right a x)
    · exact ih (min a y) x h

theorem qListMin_le {l : List ℚ} {x : ℚ} (hx : x ∈ l) : qListMin l ≤ x := by
  cases l with
  | nil => cases hx
  | cons a r =>
    simp only [qListMin]
    rcases List.mem_cons.mp hx with h | h
    · subst h; exact foldl_min_le_init r x
    · exact foldl_min_le_mem r a x h

theorem foldl_min_mem : ∀ (r : List ℚ) (a : ℚ), r.foldl min a ∈ a :: r := by
  intro r
  induction r with
  | nil => intro a; simp
  | cons y ys ih =>
    intro a
    simp only [List.foldl_cons]
    have h := ih (min a y)
    rcases List.mem_cons.mp h with h' | h'
    · rcases min_choice a y with hm | hm <;> rw [h', hm] <;> simp
    · simp [h']

theorem qListMin_mem {l : List ℚ} (h : l ≠ []) : qListMin l ∈ l := by
  cases l with
  | nil => exact absurd rfl h
  | cons a r => simpa [qListMin] using foldl_min_mem r a

theorem qListMin_perm {l l' : List ℚ} (h : List.Perm l l') : qListMin l = qListMin l' := by
  cases l with
  | nil =>
    have : l' = [] := h.nil_eq.symm
    rw [this]
  | cons a r =>
    have hne : (a :: r) ≠ [] := by simp
    have hne' : l' ≠ [] := by
      intro hl'
      subst hl'
      exact hne h.eq_nil
    exact le_antisymm (qListMin_le (h.mem_iff.mpr (qListMin_mem hne')))
      (qListMin_le (h.mem_iff.mp (qListMin_mem hne)))

theorem foldl_max_init_le : ∀ (r : List ℚ) (a : ℚ), a ≤ r.foldl max a := by
  intro r
  induction r with
  | nil => intro a; exact le_refl a
  | cons y ys ih =>
    intro a
    simp only [List.foldl_cons]
    exact le_trans (le_max_left a y) (ih (max a y))

theorem foldl_max_mem_le :
    ∀ (r : List ℚ) (a x : ℚ), x ∈ r → x ≤ r.foldl max a := by
  intro r
  induction r with
  | nil => intro a x hx; cases hx
  | cons y ys ih =>
    intro a x hx
    simp only [List.foldl_cons]
    rcases List.mem_cons.mp hx with h | h
    · subst h
      exact le_trans (le_max_right a x) (foldl_max_init_le ys (max a x))
    · exact ih (max a y) x h

theorem le_qListMax {l : List ℚ} {x : ℚ} (hx : x ∈ l) : x ≤ qListMax l := by
  cases l with
  | nil => cases hx
  | cons a r =>
    simp only [qListMax]
    rcases List.mem_cons.mp hx with h | h
    · subst h; exact foldl_max_init_le r x
    · exact foldl_max_mem_le r a x h

theorem foldl_max_mem : ∀ (r : List ℚ) (a : ℚ), r.foldl max a ∈ a :: r := by
  intro r
  induction r with
  | nil => intro a; simp
  | cons y ys ih =>
    intro a
    simp only [List.foldl_cons]
    have h := ih (max a y)
    rcases List.mem_cons.mp h with h' | h'
    · rcases max_choice a y with hm | hm <;> rw [h', hm] <;> simp
    · simp [h']

theorem qListMax_mem {l : List ℚ} (h : l ≠ []) : qListMax l ∈ l := by
  cases l with
  | nil => exact absurd rfl h
  | cons a r => simpa [qListMax] using foldl_max_mem r a

theorem qListMax_perm {l l' : List ℚ} (h : List.Perm l l') : qListMax l = qListMax l' := by
  cases l with
  | nil =>
    have : l' = [] := h.nil_eq.symm
    rw [this]
  | cons a r =>
    have hne : (a :: r) ≠ [] := by simp
    have hne' : l' ≠ [] := by
      intro hl'
      subst hl'
      exact hne h.eq_nil
    exact le_antisymm (le_qListMax (h.mem_iff.mp (qListMax_mem hne)))
      (le_qListMax (h.mem_iff.mpr (qListMax_mem hne')))

/-! ## Surya loop structure lemmas -/

theorem suryaLoop_eq_groups (yTol : ℚ) :
    ∀ (ds cur : List Det) (curY : Option ℚ) (gs : List (List Det)),
      suryaLoop yTol ds cur curY (gs.map suryaFlush) =
        (suryaGroupsLoop yTol ds cur curY gs).map suryaFlush := by
  intro ds
  induction ds with
  | nil =>
    intro cur curY gs
    simp only [suryaLoop, suryaGroupsLoop]
    by_cases h : cur.isEmpty <;> simp [h]
  | cons d rest ih =>
    intro cur curY gs
    simp only [suryaLoop, suryaGroupsLoop]
    by_cases h : suryaCond cur curY d.bbox.y0 yTol = true
    · rw [if_pos h, if_pos h, ih]
    · rw [if_neg h, if_neg h]
      by_cases hc : cur.isEmpty
      · rw [if_pos hc, if_pos hc, ih]
      · rw [if_neg hc, if_neg hc]
        have : (gs.map suryaFlush) ++ [suryaFlush cur] = (gs ++ [cur]).map suryaFlush := by
          simp
        rw [this, ih]

theorem parse_surya_output_eq_groups (yTol : ℚ) (lines : List SuryaLine) :
    parse_surya_output yTol lines =
      sortBlocksByY ((suryaGroups yTol (suryaSort (suryaCollect lines))).map suryaFlush) := by
  have h := suryaLoop_eq_groups yTol (suryaSort (suryaCollect lines)) [] none []
  simpa [parse_surya_output, suryaGroups] using congrArg sortBlocksByY h

theorem suryaGroupsLoop_flatten (yTol : ℚ) :
    ∀ (ds cur : List Det) (curY : Option ℚ) (gs : List (List Det)),
      (suryaGroupsLoop yTol ds cur curY gs).flatten = gs.flatten ++ cur ++ ds := by
  intro ds
  induction ds with
  | nil =>
    intro cur curY gs
    simp only [suryaGroupsLoop]
    by_cases h : cur.isEmpty
    · rw [if_pos h, List.isEmpty_iff.mp h]
      simp
    · rw [if_neg h]
      simp
  | cons d rest ih =>
    intro cur curY gs
    simp only [suryaGroupsLoop]
    by_cases h : suryaCond cur curY d.bbox.y0 yTol = true
    · rw [if_pos h, ih]
      simp
    · rw [if_neg h]
      by_cases hc : cur.isEmpty
      · rw [if_pos hc, ih, List.isEmpty_iff.mp hc]
        simp
      · rw [if_neg hc, ih]
        simp

theorem suryaGroupsLoop_ne_nil (yTol : ℚ) :
    ∀ (ds cur : List Det) (curY : Option ℚ) (gs : List (List Det)),
      (∀ g ∈ gs, g ≠ []) →
      ∀ g ∈ suryaGroupsLoop yTol ds cur curY gs, g ≠ [] := by
  intro ds
  induction ds with
  | nil =>
    intro cur curY gs hgs g hg
    simp only [suryaGroupsLoop] at hg
    by_cases h : cur.isEmpty
    · rw [if_pos h] at hg
      exact hgs g hg
    · rw [if_neg h] at hg
      rcases List.mem_append.mp hg with h' | h'
      · exact hgs g h'
      · have : g = cur := by simpa using h'
        subst this
        simpa [List.isEmpty_iff] using h
  | cons d rest ih =>
    intro cur curY gs hgs g hg
    simp only [suryaGroupsLoop] at hg
    by_cases h : suryaCond cur curY d.bbox.y0 yTol = true
    · rw [if_pos h] at hg
      exact ih _ _ _ hgs g hg
    · rw [if_neg h] at hg
      by_cases hc : cur.isEmpty
      · rw [if_pos hc] at hg
        exact ih _ _ _ hgs g hg
      · rw [if_neg hc] at hg
        refine ih _ _ _ ?_ g hg
        intro g' hg'
        rcases List.mem_append.mp hg' with h' | h'
        · exact hgs g' h'
        · have : g' = cur := by simpa using h'
          subst this
          simpa [List.isEmpty_iff] using hc

/-! ## The Surya grouper is exactly the anchored grouper of the spec -/

theorem suryaGroupsLoop_anchored (tol : ℚ) :
    ∀ (ds cs : List Det) (f : Det) (gs : List (List Det)),
      suryaGroupsLoop tol ds (f :: cs) (some f.bbox.y0) gs =
        anchoredLoop tol ds (f :: cs) gs := by
  intro ds
  induction ds with
  | nil =>
    intro cs f gs
    simp [suryaGroupsLoop, anchoredLoop]
  | cons d rest ih =>
    intro cs f gs
    simp only [suryaGroupsLoop, anchoredLoop, List.head?]
    have hcond : suryaCond (f :: cs) (some f.bbox.y0) d.bbox.y0 tol =
        decide (qAbs (d.bbox.y0 - f.bbox.y0) ≤ tol) := by
      simp [suryaCond]
    by_cases h : qAbs (d.bbox.y0 - f.bbox.y0) ≤ tol
    · rw [hcond, if_pos (by simpa using h)]
      have hd : (f :: cs) ++ [d] = f :: (cs ++ [d]) := by simp
      rw [hd, ih, if_pos h]
    · rw [hcond, if_neg (by simpa using h)]
      have hne : (f :: cs).isEmpty = false := by simp
      rw [hne]
      simp only [Bool.false_eq_true, if_false]
      rw [if_neg h]
      exact ih [] d (gs ++ [f :: cs])

theorem suryaGroups_eq_anchored (tol : ℚ) (ds : List Det) :
    suryaGroups tol ds = anchoredGroups tol ds := by
  cases ds with
  | nil => simp [suryaGroups, anchoredGroups, suryaGroupsLoop, anchoredLoop]
  | cons d rest =>
    simp only [suryaGroups, anchoredGroups, suryaGroupsLoop, anchoredLoop]
    have hcond : suryaCond [] none d.bbox.y0 tol = false := by simp [suryaCond]
    rw [hcond]
    simp only [Bool.false_eq_true, if_false, List.head?, List.isEmpty_nil, if_pos rfl]
    exact suryaGroupsLoop_anchored tol rest [] d []

/-! ## Paddle loop structure lemmas -/

theorem paddleLoop_eq_groups :
    ∀ (items : List PaddleItem) (cur : List Det) (gs : List (List Det)),
      paddleLoop items cur (gs.map paddleFlush) =
        (paddleGroupsLoop items cur gs).map paddleFlush := by
  intro items
  induction items with
  | nil =>
    intro cur gs
    simp only [paddleLoop, paddleGroupsLoop]
    by_cases h : cur.isEmpty <;> simp [h]
  | cons it rest ih =>
    intro cur gs
    simp only [paddleLoop, paddleGroupsLoop]
    cases hd : paddleDet it with
    | none => exact ih cur gs
    | some d =>
      cases hl : cur.getLast? with
      | none => exact ih _ gs
      | some last =>
        dsimp only
        by_cases hy : qAbs (d.bbox.y0 - last.bbox.y0) ≤ 10
        · rw [if_pos hy, if_pos hy]
          exact ih _ gs
        · rw [if_neg hy, if_neg hy]
          have hmap : (gs.map paddleFlush) ++ [paddleFlush cur] =
              (gs ++ [cur]).map paddleFlush := by simp
          rw [hmap]
          exact ih _ _

theorem parse_paddle_output_eq_groups (res : List (List PaddleItem)) :
    parse_paddle_output res = sortBlocksByY ((paddleGroups res).map paddleFlush) := by
  have h := paddleLoop_eq_groups (pySort paddleKeyLe res.flatten) [] []
  simpa [parse_paddle_output, paddleGroups] using congrArg sortBlocksByY h

theorem paddleGroupsLoop_ne_nil :
    ∀ (items : List PaddleItem) (cur : List Det) (gs : List (List Det)),
      (∀ g ∈ gs, g ≠ []) →
      ∀ g ∈ paddleGroupsLoop items cur gs, g ≠ [] := by
  intro items
  induction items with
  | nil =>
    intro cur gs hgs g hg
    simp only [paddleGroupsLoop] at hg
    by_cases h : cur.isEmpty
    · rw [if_pos h] at hg
      exact hgs g hg
    · rw [if_neg h] at hg
      rcases List.mem_append.mp hg with h' | h'
      · exact hgs g h'
      · have : g = cur := by simpa using h'
        subst this
        simpa [List.isEmpty_iff] using h
  | cons it rest ih =>
    intro cur gs hgs g hg
    simp only [paddleGroupsLoop] at hg
    cases hd : paddleDet it with
    | none =>
      rw [hd] at hg
      exact ih cur gs hgs g hg
    | some d =>
      rw [hd] at hg
      cases hl : cur.getLast? with
      | none =>
        rw [hl] at hg
        exact ih _ gs hgs g hg
      | some last =>
        rw [hl] at hg
        dsimp only at hg
        by_cases hy : qAbs (d.bbox.y0 - last.bbox.y0) ≤ 10
        · rw [if_pos hy] at hg
          exact ih _ gs hgs g hg
        · rw [if_neg hy] at hg
          refine ih _ _ ?_ g hg
          intro g' hg'
          rcases List.mem_append.mp hg' with h' | h'
          · exact hgs g' h'
          · have hc : g' = cur := by simpa using h'
            subst hc
            intro hnil
            subst hnil
            simp at hl

/-! ## Membership corollaries for the Surya grouper -/

theorem suryaGroups_flatten (yTol : ℚ) (ds : List Det) :
    (suryaGroups yTol ds).flatten = ds := by
  simpa [suryaGroups] using suryaGroupsLoop_flatten yTol ds [] none []

theorem suryaGroups_ne_nil (yTol : ℚ) (ds : List Det) :
    ∀ g ∈ suryaGroups yTol ds, g ≠ [] := by
  intro g hg
  exact suryaGroupsLoop_ne_nil yTol ds [] none [] (by intro g' hg'; cases hg') g hg

theorem suryaGroups_member_mem (yTol : ℚ) (ds : List Det) {g : List Det} {d : Det}
    (hg : g ∈ suryaGroups yTol ds) (hd : d ∈ g) : d ∈ ds := by
  have : d ∈ (suryaGroups yTol ds).flatten := List.mem_flatten.mpr ⟨g, hg, hd⟩
  rwa [suryaGroups_flatten] at this

/-- Every detection surviving the Surya collection filter has a strictly
positive-width and positive-height box. -/
theorem suryaCollect_pos_area (lines : List SuryaLine) :
    ∀ d ∈ suryaCollect lines, d.bbox.x0 < d.bbox.x1 ∧ d.bbox.y0 < d.bbox.y1 := by
  intro d hd
  simp only [suryaCollect, List.mem_filterMap] at hd
  obtain ⟨r, _, hr⟩ := hd
  by_cases ht : pyStrip r.text = ""
  · rw [if_pos ht] at hr
    cases hr
  · rw [if_neg ht] at hr
    cases hb : r.box with
    | none => rw [hb] at hr; cases hr
    | some b =>
      rw [hb] at hr
      dsimp only at hr
      by_cases hbad : b.x1 ≤ b.x0 ∨ b.y1 ≤ b.y0
      · rw [if_pos hbad] at hr
        cases hr
      · rw [if_neg hbad] at hr
        push_neg at hbad
        cases hr
        exact ⟨hbad.1, hbad.2⟩

/-! ## IoU lemmas -/

theorem calculate_bbox_iou_comm (a b : BBox) :
    calculate_bbox_iou a b = calculate_bbox_iou b a := by
  simp only [calculate_bbox_iou]
  rw [min_comm b.x1 a.x1, min_comm b.y1 a.y1, max_comm b.x0 a.x0, max_comm b.y0 a.y0]
  by_cases h1 : min a.x1 b.x1 ≤ max a.x0 b.x0 ∨ min a.y1 b.y1 ≤ max a.y0 b.y0
  · rw [if_pos h1, if_pos h1]
  · rw [if_neg h1, if_neg h1]
    have harea :
        (b.x1 - b.x0) * (b.y1 - b.y0) + (a.x1 - a.x0) * (a.y1 - a.y0) =
          (a.x1 - a.x0) * (a.y1 - a.y0) + (b.x1 - b.x0) * (b.y1 - b.y0) := by ring
    rw [harea]

theorem calculate_bbox_iou_self {a : BBox} (hx : a.x0 < a.x1) (hy : a.y0 < a.y1) :
    calculate_bbox_iou a a = 1 := by
  simp only [calculate_bbox_iou, min_self, max_self]
  have h1 : ¬(a.x1 ≤ a.x0 ∨ a.y1 ≤ a.y0) := by
    push_neg
    exact ⟨hx, hy⟩
  rw [if_neg h1]
  have harea : (0:ℚ) < (a.x1 - a.x0) * (a.y1 - a.y0) :=
    mul_pos (by linarith) (by linarith)
  have huni : (a.x1 - a.x0) * (a.y1 - a.y0) + (a.x1 - a.x0) * (a.y1 - a.y0) -
      (a.x1 - a.x0) * (a.y1 - a.y0) = (a.x1 - a.x0) * (a.y1 - a.y0) := by ring
  rw [huni, if_pos harea]
  exact div_self (ne_of_gt harea)

theorem calculate_bbox_iou_nonneg (a b : BBox) : 0 ≤ calculate_bbox_iou a b := by
  simp only [calculate_bbox_iou]
  by_cases h1 : min a.x1 b.x1 ≤ max a.x0 b.x0 ∨ min a.y1 b.y1 ≤ max a.y0 b.y0
  · rw [if_pos h1]
  · rw [if_neg h1]
    push_neg at h1
    obtain ⟨hx, hy⟩ := h1
    have hinter : (0:ℚ) < (min a.x1 b.x1 - max a.x0 b.x0) * (min a.y1 b.y1 - max a.y0 b.y0) :=
      mul_pos (by linarith) (by linarith)
    by_cases h2 : (0:ℚ) < (a.x1 - a.x0) * (a.y1 - a.y0) + (b.x1 - b.x0) * (b.y1 - b.y0) -
        (min a.x1 b.x1 - max a.x0 b.x0) * (min a.y1 b.y1 - max a.y0 b.y0)
    · rw [if_pos h2]
      positivity
    · rw [if_neg h2]

theorem calculate_bbox_iou_le_one {a b : BBox}
    (hax : a.x0 < a.x1) (hay : a.y0 < a.y1) (hbx : b.x0 < b.x1) (hby : b.y0 < b.y1) :
    calculate_bbox_iou a b ≤ 1 := by
  simp only [calculate_bbox_iou]
  by_cases h1 : min a.x1 b.x1 ≤ max a.x0 b.x0 ∨ min a.y1 b.y1 ≤ max a.y0 b.y0
  · rw [if_pos h1]
    norm_num
  · rw [if_neg h1]
    push_neg at h1
    obtain ⟨hx, hy⟩ := h1
    set ix := min a.x1 b.x1 - max a.x0 b.x0 with hix
    set iy := min a.y1 b.y1 - max a.y0 b.y0 with hiy
    have hixa : ix ≤ a.x1 - a.x0 := by
      have h1 : min a.x1 b.x1 ≤ a.x1 := min_le_left _ _
      have h2 : a.x0 ≤ max a.x0 b.x0 := le_max_left _ _
      simp only [hix]
      linarith
    have hixb : ix ≤ b.x1 - b.x0 := by
      have h1 : min a.x1 b.x1 ≤ b.x1 := min_le_right _ _
      have h2 : b.x0 ≤ max a.x0 b.x0 := le_max_right _ _
      simp only [hix]
      linarith
    have hiya : iy ≤ a.y1 - a.y0 := by
      have h1 : min a.y1 b.y1 ≤ a.y1 := min_le_left _ _
      have h2 : a.y0 ≤ max a.y0 b.y0 := le_max_left _ _
      simp only [hiy]
      linarith
    have hiyb : iy ≤ b.y1 - b.y0 := by
      have h1 : min a.y1 b.y1 ≤ b.y1 := min_le_right _ _
      have h2 : b.y0 ≤ max a.y0 b.y0 := le_max_right _ _
      simp only [hiy]
      linarith
    have hixpos : 0 < ix := by simp only [hix]; linarith
    have hiypos : 0 < iy := by simp only [hiy]; linarith
    have hinter_a : ix * iy ≤ (a.x1 - a.x0) * (a.y1 - a.y0) := by
      have := mul_le_mul hixa hiya (le_of_lt hiypos) (by linarith)
      linarith
    have hinter_b : ix * iy ≤ (b.x1 - b.x0) * (b.y1 - b.y0) := by
      have := mul_le_mul hixb hiyb (le_of_lt hiypos) (by linarith)
      linarith
    have huni_pos : (0:ℚ) < (a.x1 - a.x0) * (a.y1 - a.y0) + (b.x1 - b.x0) * (b.y1 - b.y0) -
        ix * iy := by
      have hi : 0 < ix * iy := mul_pos hixpos hiypos
      linarith
    rw [if_pos huni_pos]
    rw [div_le_one huni_pos]
    have hi : 0 < ix * iy := mul_pos hixpos hiypos
    linarith

/-- Separated boxes (sharing at most an edge) have IoU zero. -/
theorem calculate_bbox_iou_separated {a b : BBox}
    (h : a.x1 ≤ b.x0 ∨ b.x1 ≤ a.x0 ∨ a.y1 ≤ b.y0 ∨ b.y1 ≤ a.y0) :
    calculate_bbox_iou a b = 0 := by
  simp only [calculate_bbox_iou]
  have h1 : min a.x1 b.x1 ≤ max a.x0 b.x0 ∨ min a.y1 b.y1 ≤ max a.y0 b.y0 := by
    rcases h with h | h | h | h
    · exact Or.inl (le_trans (min_le_left _ _) (le_trans h (le_max_right _ _)))
    · exact Or.inl (le_trans (min_le_right _ _) (le_trans h (le_max_left _ _)))
    · exact Or.inr (le_trans (min_le_left _ _) (le_trans h (le_max_right _ _)))
    · exact Or.inr (le_trans (min_le_right _ _) (le_trans h (le_max_left _ _)))
  rw [if_pos h1]

/-! ## bestIoU and layout preservation lemmas -/

theorem foldl_max_f_le {α : Type} (f : α → ℚ) (c : ℚ) :
    ∀ (l : List α) (init : ℚ), init ≤ c → (∀ x ∈ l, f x ≤ c) →
      l.foldl (fun acc x => max acc (f x)) init ≤ c := by
  intro l
  induction l with
  | nil => intro init hinit _; exact hinit
  | cons y ys ih =>
    intro init hinit hl
    simp only [List.foldl_cons]
    refine ih (max init (f y)) ?_ ?_
    · exact max_le hinit (hl y (by simp))
    · intro x hx
      exact hl x (by simp [hx])

theorem le_foldl_max_f {α : Type} (f : α → ℚ) :
    ∀ (l : List α) (init : ℚ) (x : α), x ∈ l →
      f x ≤ l.foldl (fun acc x => max acc (f x)) init := by
  intro l
  induction l with
  | nil => intro init x hx; cases hx
  | cons y ys ih =>
    intro init x hx
    simp only [List.foldl_cons]
    rcases List.mem_cons.mp hx with h | h
    · subst h
      have h1 : f x ≤ max init (f x) := le_max_right _ _
      have h2 : ∀ (l : List α) (i i' : ℚ), i ≤ i' →
          l.foldl (fun acc x => max acc (f x)) i ≤ l.foldl (fun acc x => max acc (f x)) i' := by
        intro l
        induction l with
        | nil => intro i i' h; exact h
        | cons z zs ihz =>
          intro i i' h
          simp only [List.foldl_cons]
          exact ihz _ _ (max_le_max h (le_refl (f z)))
      have h3 : ∀ (l : List α) (i : ℚ), i ≤ l.foldl (fun acc x => max acc (f x)) i := by
        intro l
        induction l with
        | nil => intro i; exact le_refl i
        | cons z zs ihz =>
          intro i
          simp only [List.foldl_cons]
          exact le_trans (le_max_left i (f z)) (ihz (max i (f z)))
      exact le_trans h1 (h3 ys (max init (f x)))
    · exact ih (max init (f y)) x h

theorem bestIoU_le_one {b : BBox} {after : List BBox}
    (hb : b.x0 < b.x1 ∧ b.y0 < b.y1)
    (hafter : ∀ a ∈ after, a.x0 < a.x1 ∧ a.y0 < a.y1) :
    bestIoU b after ≤ 1 := by
  refine foldl_max_f_le (fun a => calculate_bbox_iou b a) 1 after 0 (by norm_num) ?_
  intro a ha
  exact calculate_bbox_iou_le_one hb.1 hb.2 (hafter a ha).1 (hafter a ha).2

theorem bestIoU_self_mem {b : BBox} {l : List BBox} (hb : b ∈ l)
    (hpos : ∀ a ∈ l, a.x0 < a.x1 ∧ a.y0 < a.y1) :
    bestIoU b l = 1 := by
  refine le_antisymm (bestIoU_le_one (hpos b hb) hpos) ?_
  have h : calculate_bbox_iou b b ≤ bestIoU b l :=
    le_foldl_max_f (fun a => calculate_bbox_iou b a) l 0 b hb
  rwa [calculate_bbox_iou_self (hpos b hb).1 (hpos b hb).2] at h

theorem foldl_add_if {α : Type} (f : α → ℚ) (p : α → Prop) [DecidablePred p] :
    ∀ (l : List α) (init : ℚ),
      l.foldl (fun acc b => if p b then acc + f b else acc) init =
        init + (l.map fun b => if p b then f b else 0).sum := by
  intro l
  induction l with
  | nil => intro init; simp
  | cons y ys ih =>
    intro init
    simp only [List.foldl_cons, List.map_cons, List.sum_cons]
    by_cases h : p y
    · rw [if_pos h, if_pos h, ih]
      ring
    · rw [if_neg h, if_neg h, ih]
      ring

theorem sum_map_ones {α : Type} (g : α → ℚ) :
    ∀ (l : List α), (∀ b ∈ l, g b = 1) → (l.map g).sum = (l.length : ℚ) := by
  intro l
  induction l with
  | nil => intro _; simp
  | cons y ys ih =>
    intro h
    simp only [List.map_cons, List.sum_cons, List.length_cons]
    rw [h y (by simp), ih (fun b hb => h b (by simp [hb]))]
    push_cast
    ring

/-! ## Mean and union are invariant under permutations of the members -/

theorem qMean_perm {l l' : List ℚ} (h : List.Perm l l') : qMean l = qMean l' := by
  simp only [qMean]
  rw [h.sum_eq, h.length_eq]

theorem detUnion_perm {l l' : List Det} (h : List.Perm l l') : detUnion l = detUnion l' := by
  simp only [detUnion]
  rw [qListMin_perm (h.map fun d => d.bbox.x0), qListMin_perm (h.map fun d => d.bbox.y0),
    qListMax_perm (h.map fun d => d.bbox.x1), qListMax_perm (h.map fun d => d.bbox.y1)]

/-! ## Claim theorems -/

/-- C10: if the before list or the after list passed to the
layout-preservation computation is empty, the result is exactly 0, with
no division and no exception. -/
theorem layout_preservation_empty_zero :
    (∀ after : List BBox, calculate_layout_preservation [] after = 0) ∧
    (∀ before : List BBox, calculate_layout_preservation before [] = 0) := by
  constructor
  · intro after
    simp [calculate_layout_preservation]
  · intro before
    simp [calculate_layout_preservation]

/-- C4: for non-empty before/after lists the layout-preservation score is
the sum of the best IoUs of the before-boxes whose best IoU exceeds 0.3
(unmatched boxes contribute 0), divided by the number of before-boxes;
identical lists of positive-area boxes score exactly 1. -/
theorem layout_preservation_spec :
    (∀ before after : List BBox, before ≠ [] → after ≠ [] →
      calculate_layout_preservation before after =
        (before.map fun b => if 3/10 < bestIoU b after then bestIoU b after else 0).sum
          / (before.length : ℚ)) ∧
    (∀ bs : List BBox, bs ≠ [] → (∀ b ∈ bs, b.x0 < b.x1 ∧ b.y0 < b.y1) →
      calculate_layout_preservation bs bs = 1) := by
  have hformula : ∀ before after : List BBox, before ≠ [] → after ≠ [] →
      calculate_layout_preservation before after =
        (before.map fun b => if 3/10 < bestIoU b after then bestIoU b after else 0).sum
          / (before.length : ℚ) := by
    intro before after hbef haft
    simp only [calculate_layout_preservation]
    rw [if_neg (by simp [List.isEmpty_iff, hbef, haft])]
    rw [foldl_add_if (fun b => bestIoU b after) (fun b => 3/10 < bestIoU b after) before 0]
    rw [zero_add]
  refine ⟨hformula, ?_⟩
  intro bs hne hpos
  rw [hformula bs bs hne hne]
  have hone : ∀ b ∈ bs, (if (3:ℚ)/10 < bestIoU b bs then bestIoU b bs else 0) = 1 := by
    intro b hb
    rw [bestIoU_self_mem hb hpos]
    norm_num
  rw [sum_map_ones _ bs hone]
  have hlen : (bs.length : ℚ) ≠ 0 := by
    simp only [ne_eq, Nat.cast_eq_zero, List.length_eq_zero]
    exact hne
  exact div_self hlen

/-- C4 witness: the spec's own example, identical before/after boxes
`[0, 0, 100, 20]` give layout preservation exactly 1. -/
theorem layout_preservation_spec_witness :
    calculate_layout_preservation [⟨0, 0, 100, 20⟩] [⟨0, 0, 100, 20⟩] = 1 := by
  refine layout_preservation_spec.2 [⟨0, 0, 100, 20⟩] (by simp) ?_
  intro b hb
  have hb' : b = ⟨0, 0, 100, 20⟩ := by simpa using hb
  subst hb'
  norm_num

/-- C5 counterexample: the claim asserts `iou(a, a) = 1.0` for EVERY box
`a`, but for the degenerate (zero-width) box `[0, 0, 0, 10]` the code
takes the empty-intersection branch and returns 0. -/
theorem iou_degenerate_self_ne_one :
    calculate_bbox_iou ⟨0, 0, 0, 10⟩ ⟨0, 0, 0, 10⟩ = 0 ∧
    calculate_bbox_iou ⟨0, 0, 0, 10⟩ ⟨0, 0, 0, 10⟩ ≠ 1 := by
  have h : calculate_bbox_iou ⟨0, 0, 0, 10⟩ ⟨0, 0, 0, 10⟩ = 0 := by
    norm_num [calculate_bbox_iou]
  exact ⟨h, by rw [h]; norm_num⟩

/-- C5 (amended): IoU is symmetric for all boxes, zero for separated
boxes, and `iou(a, a) = 1` for every box of positive width and height
(for degenerate boxes the self-IoU is 0, see the counterexample). -/
theorem iou_properties :
    (∀ a b : BBox, calculate_bbox_iou a b = calculate_bbox_iou b a) ∧
    (∀ a b : BBox, (a.x1 ≤ b.x0 ∨ b.x1 ≤ a.x0 ∨ a.y1 ≤ b.y0 ∨ b.y1 ≤ a.y0) →
      calculate_bbox_iou a b = 0) ∧
    (∀ a : BBox, a.x0 < a.x1 → a.y0 < a.y1 → calculate_bbox_iou a a = 1) :=
  ⟨calculate_bbox_iou_comm,
   fun _ _ h => calculate_bbox_iou_separated h,
   fun _ hx hy => calculate_bbox_iou_self hx hy⟩

/-- C5 witness: a concrete separated pair has IoU 0 and a concrete
positive-area box has self-IoU 1. -/
theorem iou_properties_witness :
    calculate_bbox_iou ⟨0, 0, 10, 10⟩ ⟨20, 0, 30, 10⟩ = 0 ∧
    calculate_bbox_iou ⟨0, 0, 100, 20⟩ ⟨0, 0, 100, 20⟩ = 1 := by
  constructor
  · exact iou_properties.2.1 ⟨0, 0, 10, 10⟩ ⟨20, 0, 30, 10⟩ (Or.inl (by norm_num))
  · exact iou_properties.2.2 ⟨0, 0, 100, 20⟩ (by norm_num) (by norm_num)

/-- C7 counterexample: the claim's normalization rule fails on the code in three
ways - the Surya parser defaults a MISSING confidence to 1.0 (not 0.9),
it clamps also when the raw value is not greater than 1 (so -1/2 becomes
0, not "unchanged"), and the Nanonets parser applies NO normalization at
all (97 stays 97, not 0.97). -/
theorem confidence_normalization_counterexample :
    (suryaNormConf none = 1 ∧ (1:ℚ) ≠ 9/10) ∧
    (nanonetsConf (some 97) = 97 ∧ (97:ℚ) ≠ 97/100) ∧
    (suryaNormConf (some (-(1/2))) = 0 ∧ (0:ℚ) ≠ -(1/2)) := by
  refine ⟨⟨?_, by norm_num⟩, ⟨?_, by norm_num⟩, ⟨?_, by norm_num⟩⟩ <;>
    norm_num [suryaNormConf, nanonetsConf]

/-- C7 (amended): Surya normalizes `some c` to `max 0 (min 1 (if c > 1
then c / 100 else c))` (so 97 becomes 0.97 and 0.5 stays 0.5) and
defaults a missing confidence to 1.0; Nanonets uses a raw confidence
unchanged and defaults a missing one to 0.9. -/
theorem confidence_normalization_spec :
    (∀ c : ℚ, suryaNormConf (some c) = max 0 (min 1 (if 1 < c then c / 100 else c))) ∧
    suryaNormConf none = 1 ∧
    suryaNormConf (some 97) = 97/100 ∧
    suryaNormConf (some (1/2)) = 1/2 ∧
    (∀ c : ℚ, nanonetsConf (some c) = c) ∧
    nanonetsConf none = 9/10 := by
  refine ⟨fun c => rfl, ?_, ?_, ?_, fun c => rfl, rfl⟩ <;>
    norm_num [suryaNormConf]

/-- C3 counterexample: for `[[0,100,10,110], [0,0,10,10]]` the code scores
1/2 - it counts violations over the ORIGINAL order (the sorted copy it
computes is never used) and divides by the number of boxes (2) - while
the claim's rule (sorted adjacent pairs, denominator = number of
adjacent pairs = 1) yields 1. -/
theorem reading_order_counterexample :
    calculate_reading_order_score [⟨0, 100, 10, 110⟩, ⟨0, 0, 10, 10⟩] = 1/2 ∧
    readingOrderScoreSpec [⟨0, 100, 10, 110⟩, ⟨0, 0, 10, 10⟩] = 1 := by
  constructor
  · norm_num [calculate_reading_order_score, orderViolations, orderViolation, qAbs,
      List.countP_cons, List.countP_nil]
  · norm_num [readingOrderScoreSpec, orderViolations, orderViolation, qAbs,
      pySort, insertAfterLe, bboxYXLe, List.countP_cons, List.countP_nil]

/-- C3 (amended): the reading-order score is `max 0 (1 - violations /
len(bboxes))` where the violations are counted over adjacent pairs in
the ORIGINAL list order (a pair violates when the next box's top y is
more than 10 below the current one, or the pair is within strict 10 px
vertically and horizontally inverted); the score always lies in [0, 1];
lists with fewer than two boxes score 1. -/
theorem reading_order_score_spec (bs : List BBox) :
    0 ≤ calculate_reading_order_score bs ∧
    calculate_reading_order_score bs ≤ 1 ∧
    (2 ≤ bs.length →
      calculate_reading_order_score bs =
        max 0 (1 - (orderViolations bs : ℚ) / (bs.length : ℚ))) := by
  refine ⟨?_, ?_, ?_⟩
  · simp only [calculate_reading_order_score]
    by_cases h : bs.length < 2
    · rw [if_pos h]
      norm_num
    · rw [if_neg h]
      exact le_max_left 0 _
  · simp only [calculate_reading_order_score]
    by_cases h : bs.length < 2
    · rw [if_pos h]
    · rw [if_neg h]
      have hv : (0:ℚ) ≤ (orderViolations bs : ℚ) / (bs.length : ℚ) := by
        apply div_nonneg <;> positivity
      have h1 : (1:ℚ) - (orderViolations bs : ℚ) / (bs.length : ℚ) ≤ 1 := by linarith
      exact max_le (by norm_num) h1
  · intro h
    simp only [calculate_reading_order_score]
    rw [if_neg (by omega)]

/-- C3 witness: the amended formula instantiated at a concrete
two-element list, with the length hypothesis discharged. -/
theorem reading_order_score_spec_witness :
    calculate_reading_order_score [⟨0, 0, 10, 10⟩, ⟨0, 20, 10, 30⟩] =
      max 0 (1 - (orderViolations [⟨0, 0, 10, 10⟩, ⟨0, 20, 10, 30⟩] : ℚ) /
        (List.length [(⟨0, 0, 10, 10⟩ : BBox), ⟨0, 20, 10, 30⟩] : ℚ)) :=
  (reading_order_score_spec [⟨0, 0, 10, 10⟩, ⟨0, 20, 10, 30⟩]).2.2 (by simp)

/-- C1 (amended, Surya): the Surya line grouper is EXACTLY the anchored
grouper of the spec - the reference y of a buffer is its first member's
top y, a sorted detection is appended iff its top y is within tolerance
of that reference (appending leaves the reference unchanged), and
otherwise the buffer is flushed and restarted; consequently the parser
output is the flush of the anchored groups in reading order. -/
theorem surya_grouping_anchored :
    (∀ (tol : ℚ) (ds : List Det), suryaGroups tol ds = anchoredGroups tol ds) ∧
    (∀ (yTol : ℚ) (lines : List SuryaLine),
      parse_surya_output yTol lines =
        sortBlocksByY ((anchoredGroups yTol (suryaSort (suryaCollect lines))).map suryaFlush)) := by
  constructor
  · exact suryaGroups_eq_anchored
  · intro yTol lines
    rw [parse_surya_output_eq_groups, suryaGroups_eq_anchored]

/-- C1 counterexample: the Paddle grouper compares a detection's top y
with the LAST buffered member's top y, not the first's.  On detections
with top ys 0, 8 and 16 the chained comparison (8 and 8, both within 10)
produces ONE block, while the claim's anchored rule (16 - 0 > 10) yields
TWO groups. -/
theorem paddle_grouping_not_anchored :
    (parse_paddle_output
      [[{ poly := [(0, 0), (50, 4)], recog := some (some ("a"), some 1) },
        { poly := [(0, 8), (50, 12)], recog := some (some ("b"), some 1) },
        { poly := [(0, 16), (50, 20)], recog := some (some ("c"), some 1) }]]).length = 1 ∧
    (anchoredGroups 10
      [{ bbox := ⟨0, 0, 50, 4⟩, text := "a", conf := 1 },
       { bbox := ⟨0, 8, 50, 12⟩, text := "b", conf := 1 },
       { bbox := ⟨0, 16, 50, 20⟩, text := "c", conf := 1 }]).length = 2 := by
  constructor
  · have ha : pyStrip ("a") = "a" := rfl
    have hb : pyStrip ("b") = "b" := rfl
    have hc : pyStrip ("c") = "c" := rfl
    have hna : ("a" : String) ≠ "" := by decide
    have hnb : ("b" : String) ≠ "" := by decide
    have hnc : ("c" : String) ≠ "" := by decide
    norm_num [parse_paddle_output, paddleLoop, paddleDet, paddleFlush, pySort,
      insertAfterLe, paddleKeyLe, paddleKey, qListMin, qListMax, qAbs,
      sortBlocksByY, blockYLe, spaceJoin, qMean, detUnion,
      ha, hb, hc, hna, hnb, hnc]
  · norm_num [anchoredGroups, anchoredLoop, qAbs]

/-- C6: the Surya line groups partition the surviving detections - every
group is non-empty, the concatenation of the groups is a permutation of
the surviving detections (so each one lies in exactly one group, with
multiplicity), and hence the multiset of member texts across groups
equals the multiset of surviving detection texts. -/
theorem surya_grouping_partition (yTol : ℚ) (lines : List SuryaLine) :
    (∀ g ∈ suryaGroups yTol (suryaSort (suryaCollect lines)), g ≠ []) ∧
    List.Perm (suryaGroups yTol (suryaSort (suryaCollect lines))).flatten
      (suryaCollect lines) ∧
    List.Perm ((suryaGroups yTol (suryaSort (suryaCollect lines))).map
        (List.map Det.text)).flatten
      ((suryaCollect lines).map Det.text) := by
  have hperm : List.Perm (suryaGroups yTol (suryaSort (suryaCollect lines))).flatten
      (suryaCollect lines) := by
    rw [suryaGroups_flatten]
    exact pySort_perm suryaLe (suryaCollect lines)
  refine ⟨suryaGroups_ne_nil _ _, hperm, ?_⟩
  have hmap := hperm.map Det.text
  rwa [List.map_flatten] at hmap

/-- C6 witness: the partition properties instantiated on a concrete
one-line page, with the group-membership hypothesis discharged. -/
theorem surya_grouping_partition_witness :
    (([{ bbox := ⟨0, 0, 50, 10⟩, text := "hello", conf := 1 }] : List Det) ≠ []) ∧
    List.Perm
      (suryaGroups 10 (suryaSort (suryaCollect
        [{ text := "hello", conf := some 1, box := some ⟨0, 0, 50, 10⟩ }]))).flatten
      (suryaCollect [{ text := "hello", conf := some 1, box := some ⟨0, 0, 50, 10⟩ }]) := by
  constructor
  · refine (surya_grouping_partition 10
      [{ text := "hello", conf := some 1, box := some ⟨0, 0, 50, 10⟩ }]).1
      [{ bbox := ⟨0, 0, 50, 10⟩, text := "hello", conf := 1 }] ?_
    have hh : pyStrip ("hello") = "hello" := rfl
    have hnh : ("hello" : String) ≠ "" := by decide
    norm_num [suryaGroups, suryaGroupsLoop, suryaCond, suryaSort, pySort,
      insertAfterLe, suryaLe, suryaCollect, suryaNormConf, hh, hnh]
  · exact (surya_grouping_partition 10
      [{ text := "hello", conf := some 1, box := some ⟨0, 0, 50, 10⟩ }]).2.1

/-- C8 (amended, Surya): the Surya parser discards every detection whose
box is inverted or degenerate (`x1 <= x0 or y1 <= y0`; non-finite values
do not exist on ℚ) before grouping, so every surviving detection and
every output block has strictly positive width and height - and since
every flushed buffer is non-empty, no mean-confidence computation divides
by zero. -/
theorem surya_discards_degenerate (yTol : ℚ) (lines : List SuryaLine) :
    (∀ d ∈ suryaCollect lines, d.bbox.x0 < d.bbox.x1 ∧ d.bbox.y0 < d.bbox.y1) ∧
    (∀ b ∈ parse_surya_output yTol lines,
      b.bbox.x0 < b.bbox.x1 ∧ b.bbox.y0 < b.bbox.y1) := by
  refine ⟨suryaCollect_pos_area lines, ?_⟩
  intro b hb
  rw [parse_surya_output_eq_groups] at hb
  have hb' : b ∈ (suryaGroups yTol (suryaSort (suryaCollect lines))).map suryaFlush :=
    (pySort_mem_iff blockYLe _ b).mp hb
  obtain ⟨g, hg, rfl⟩ := List.mem_map.mp hb'
  have hgne : g ≠ [] := suryaGroups_ne_nil _ _ g hg
  have hmem : ∀ d ∈ g, d ∈ suryaCollect lines := by
    intro d hd
    have hds : d ∈ suryaSort (suryaCollect lines) := suryaGroups_member_mem _ _ hg hd
    exact (pySort_mem_iff suryaLe _ d).mp hds
  obtain ⟨d0, hd0⟩ : ∃ d0, d0 ∈ g := by
    cases g with
    | nil => exact absurd rfl hgne
    | cons a t => exact ⟨a, by simp⟩
  have hpos := suryaCollect_pos_area lines d0 (hmem d0 hd0)
  constructor
  · calc (suryaFlush g).bbox.x0 ≤ d0.bbox.x0 :=
          qListMin_le (List.mem_map_of_mem (fun d => d.bbox.x0) hd0)
      _ < d0.bbox.x1 := hpos.1
      _ ≤ (suryaFlush g).bbox.x1 :=
          le_qListMax (List.mem_map_of_mem (fun d => d.bbox.x1) hd0)
  · calc (suryaFlush g).bbox.y0 ≤ d0.bbox.y0 :=
          qListMin_le (List.mem_map_of_mem (fun d => d.bbox.y0) hd0)
      _ < d0.bbox.y1 := hpos.2
      _ ≤ (suryaFlush g).bbox.y1 :=
          le_qListMax (List.mem_map_of_mem (fun d => d.bbox.y1) hd0)

/-- C8 witness: on a page holding the zero-area detection `[10,10,10,10]`
and one valid detection, the surviving detection and the single output
block both have positive extent. -/
theorem surya_discards_degenerate_witness :
    ((0:ℚ) < 50 ∧ (0:ℚ) < 10) ∧ ((0:ℚ) < 50 ∧ (0:ℚ) < 10) := by
  constructor
  · refine (surya_discards_degenerate 10
      [{ text := "x", conf := some (1/2), box := some ⟨10, 10, 10, 10⟩ },
       { text := "y", conf := some 1, box := some ⟨0, 0, 50, 10⟩ }]).1
      { bbox := ⟨0, 0, 50, 10⟩, text := "y", conf := 1 } ?_
    have hx : pyStrip ("x") = "x" := rfl
    have hy : pyStrip ("y") = "y" := rfl
    have hnx : ("x" : String) ≠ "" := by decide
    have hny : ("y" : String) ≠ "" := by decide
    norm_num [suryaCollect, suryaNormConf, hx, hy, hnx, hny]
  · refine (surya_discards_degenerate 10
      [{ text := "x", conf := some (1/2), box := some ⟨10, 10, 10, 10⟩ },
       { text := "y", conf := some 1, box := some ⟨0, 0, 50, 10⟩ }]).2
      { text := "y", confidence := 1, bbox := ⟨0, 0, 50, 10⟩ } ?_
    have hx : pyStrip ("x") = "x" := rfl
    have hy : pyStrip ("y") = "y" := rfl
    have hnx : ("x" : String) ≠ "" := by decide
    have hny : ("y" : String) ≠ "" := by decide
    have hj : spaceJoin ["y"] = "y" := rfl
    norm_num [parse_surya_output, suryaLoop, suryaCond, suryaFlush, suryaCollect,
      suryaNormConf, suryaSort, pySort, insertAfterLe, suryaLe, pyRound1,
      pyRoundInt, qAbs, sortBlocksByY, blockYLe, qMean, detUnion, qListMin,
      qListMax, hx, hy, hnx, hny, hj]

/-- C8 counterexample: the EasyOCR parser has NO pre-grouping coordinate
filter - a detection with the zero-area bbox `[10,10,10,10]` survives
and appears in an output Block, contradicting the claim for that parser. -/
theorem easy_keeps_degenerate :
    parse_easy_output [some ([(10, 10)], "x", 1/2)] =
      .ok [{ text := "x", confidence := 1/2, bbox := ⟨10, 10, 10, 10⟩ }] := by
  have hx : pyStrip ("x") = "x" := rfl
  have hnx : ("x" : String) ≠ "" := by decide
  have hj : spaceJoin ["x"] = "x" := rfl
  norm_num [parse_easy_output, easyCollect, easyLoop, easyFlush, easyConf, pySort,
    insertAfterLe, easyYLe, qListMin, qListMax, qAbs, sortBlocksByY, blockYLe,
    qMean, detUnion, Except.bind, Except.map, hx, hnx, hj]

/-- C9 (amended, Paddle): every block output by the Paddle parser is the
flush of a non-empty buffered group - its text is the space-join of the
member texts sorted by left x ascending, its confidence is the arithmetic
mean of the member confidences, and its bbox is the union of the member
boxes.  (The Surya flush instead joins member texts in buffer order
without re-sorting by x; see the counterexample.) -/
theorem paddle_flush_spec (res : List (List PaddleItem)) (b : Block)
    (hb : b ∈ parse_paddle_output res) :
    ∃ g, g ∈ paddleGroups res ∧ g ≠ [] ∧ b = paddleFlush g ∧
      b.text = spaceJoin
        ((pySort (fun a b : Det => decide (a.bbox.x0 ≤ b.bbox.x0)) g).map Det.text) ∧
      b.confidence = qMean (g.map Det.conf) ∧
      b.bbox = detUnion g := by
  rw [parse_paddle_output_eq_groups] at hb
  have hb' : b ∈ (paddleGroups res).map paddleFlush :=
    (pySort_mem_iff blockYLe _ b).mp hb
  obtain ⟨g, hg, rfl⟩ := List.mem_map.mp hb'
  have hperm : List.Perm (pySort (fun a b : Det => decide (a.bbox.x0 ≤ b.bbox.x0)) g) g :=
    pySort_perm _ g
  refine ⟨g, hg, ?_, rfl, rfl, ?_, ?_⟩
  · exact paddleGroupsLoop_ne_nil _ _ _ (by intro g' h; cases h) g hg
  · exact qMean_perm (hperm.map Det.conf)
  · exact detUnion_perm hperm

/-- C9 witness: the flush description instantiated on a concrete
one-entry page, with the block-membership hypothesis discharged. -/
theorem paddle_flush_spec_witness :
    ∃ g, g ∈ paddleGroups [[{ poly := [(0, 0), (50, 4)], recog := some (some ("a"), some 1) }]] ∧
      g ≠ [] ∧
      ({ text := "a", confidence := 1, bbox := ⟨0, 0, 50, 4⟩ } : Block) = paddleFlush g ∧
      ({ text := "a", confidence := 1, bbox := ⟨0, 0, 50, 4⟩ } : Block).text = spaceJoin
        ((pySort (fun a b : Det => decide (a.bbox.x0 ≤ b.bbox.x0)) g).map Det.text) ∧
      ({ text := "a", confidence := 1, bbox := ⟨0, 0, 50, 4⟩ } : Block).confidence =
        qMean (g.map Det.conf) ∧
      ({ text := "a", confidence := 1, bbox := ⟨0, 0, 50, 4⟩ } : Block).bbox = detUnion g := by
  refine paddle_flush_spec [[{ poly := [(0, 0), (50, 4)], recog := some (some ("a"), some 1) }]]
    { text := "a", confidence := 1, bbox := ⟨0, 0, 50, 4⟩ } ?_
  have ha : pyStrip ("a") = "a" := rfl
  have hna : ("a" : String) ≠ "" := by decide
  have hj : spaceJoin ["a"] = "a" := rfl
  norm_num [parse_paddle_output, paddleLoop, paddleDet, paddleFlush, pySort,
    insertAfterLe, paddleKeyLe, paddleKey, qListMin, qListMax, qAbs,
    sortBlocksByY, blockYLe, qMean, detUnion, ha, hna, hj]

/-- C9 counterexample: the Surya flush does NOT sort the buffer members
by left x before joining - on a same-band pair whose vertically higher
member sits to the right, the block text is "R L" (buffer order), not
the left-to-right "L R" the claim requires. -/
theorem surya_join_not_x_sorted :
    (parse_surya_output 10
      [{ text := "L", conf := some 1, box := some ⟨0, 5, 50, 9⟩ },
       { text := "R", conf := some 1, box := some ⟨100, 0, 150, 4⟩ }]).map Block.text =
      ["R L"] ∧ ("R L" : String) ≠ "L R" := by
  constructor
  · have hl : pyStrip ("L") = "L" := rfl
    have hr : pyStrip ("R") = "R" := rfl
    have hnl : ("L" : String) ≠ "" := by decide
    have hnr : ("R" : String) ≠ "" := by decide
    have hj : pyStrip (spaceJoin ["R", "L"]) = "R L" := rfl
    norm_num [parse_surya_output, suryaLoop, suryaCond, suryaFlush, suryaCollect,
      suryaNormConf, suryaSort, pySort, insertAfterLe, suryaLe, pyRound1,
      pyRoundInt, qAbs, sortBlocksByY, blockYLe, qMean, detUnion, qListMin,
      qListMax, List.filterMap_cons, hl, hr, hnl, hnr, hj]
  · decide

/-- C2 (code bug): grouping three detections that share one line crashes
the EasyOCR parser - the second member is appended without the `'y0'`
key, and processing the third reads that key from the last member and
raises `KeyError`, so the parse of the page is aborted rather than
returning a block list. -/
theorem easy_grouping_keyerror :
    parse_easy_output
      [some ([(0, 0), (10, 5)], "a", 9/10),
       some ([(0, 4), (10, 9)], "b", 9/10),
       some ([(0, 8), (10, 13)], "c", 9/10)] = .error keyErrY0 := by
  have ha : pyStrip ("a") = "a" := rfl
  have hb : pyStrip ("b") = "b" := rfl
  have hc : pyStrip ("c") = "c" := rfl
  have hna : ("a" : String) ≠ "" := by decide
  have hnb : ("b" : String) ≠ "" := by decide
  have hnc : ("c" : String) ≠ "" := by decide
  norm_num [parse_easy_output, easyCollect, easyLoop, easyConf, pySort,
    insertAfterLe, easyYLe, qListMin, qListMax, qAbs, Except.bind, Except.map,
    ha, hb, hc, hna, hnb, hnc]
